import Mathlib

/-!
Shallow embedding of the two CSV localization utilities of this repository
(src/extract_langs.js, the split/merge tool, and the chunked-translation
script src/unnamed/part_000) together with proofs about the claims of the
specification.

Rows parsed from a CSV are modelled as ordered association lists from
column name to string value (a JS object preserves insertion order of its
keys).  Streaming I/O is modelled by passing the fully parsed row list to
each operation; file outputs are modelled as returned values.  All
definitions are structural recursions so that concrete instances evaluate.
-/

set_option maxRecDepth 8192

/-- A parsed CSV row: ordered mapping from column name to string value. -/
abbrev Row := List (String × String)

/-- Column access `row[c]`: the value of the first (only) entry named `c`. -/
def getCol (r : Row) (c : String) : Option String :=
  (r.find? (fun p => p.1 == c)).map (fun p => p.2)

/-- JS assignment `row[c] = v`: updates an existing entry in place, else appends. -/
def setCol (r : Row) (c v : String) : Row :=
  if r.any (fun p => p.1 == c) then
    r.map (fun p => if p.1 == c then (p.1, v) else p)
  else r ++ [(c, v)]

/-- Whether the row already has a column named `c`. -/
def hasCol (r : Row) (c : String) : Bool := r.any (fun p => p.1 == c)

/-- JS `String.prototype.trim`: drop whitespace from both ends. -/
def jsTrim (s : String) : String :=
  String.mk (((s.data.dropWhile Char.isWhitespace).reverse.dropWhile
    Char.isWhitespace).reverse)

/-- The filter applied by the `data` callbacks of split and merge
(extract_langs.js lines 22-26, 83-93, 122-133):
`row.Key && row.Key.trim() !== ''`. -/
def validRow (r : Row) : Bool :=
  match getCol r "Key" with
  | some k => k != "" && jsTrim k != ""
  | none => false

/-- Rows retained by the split and merge CSV readers. -/
def retainValid (rows : List Row) : List Row := rows.filter validRow

/-- `getCsvRows` of the chunked-translation script (part_000 lines 45-60):
every parsed row is pushed, with no filtering at all. -/
def getCsvRows (rows : List Row) : List Row := rows

/-- JS `Set.add` on an insertion-ordered duplicate-free list. -/
def addUnique (acc : List String) (x : String) : List String :=
  if acc.contains x then acc else acc ++ [x]

/-- The set of distinct trimmed keys collected while parsing
(extract_langs.js lines 84-92 and 123-132), in insertion order. -/
def collectKeys (rows : List Row) : List String :=
  rows.foldl (fun acc r => addUnique acc (jsTrim ((getCol r "Key").getD ""))) []

/-- Result of the key reconciliation (extract_langs.js lines 170-173). -/
structure Reconciled where
  matching : List String
  missingInSecondary : List String
  extraInSecondary : List String
deriving DecidableEq

/-- extract_langs.js lines 170-173: matching, missing and ignored unique keys,
computed by filtering one key set against membership in the other. -/
def reconcile (p s : List String) : Reconciled :=
  { matching := p.filter (fun k => s.contains k)
    missingInSecondary := p.filter (fun k => !(s.contains k))
    extraInSecondary := s.filter (fun k => !(p.contains k)) }

/-- Line 190: `expectedMatches = origKeys.size - missingInNew.size` (JS numbers). -/
def expectedMatches (p s : List String) : Int :=
  (p.length : Int) - ((reconcile p s).missingInSecondary.length : Int)

/-- Line 191: the condition guarding the defensive consistency warning. -/
def mergeWarnB (p s : List String) : Bool :=
  (((reconcile p s).matching.length : Int) != expectedMatches p s)

/-- JS `\w` character class: ASCII alphanumeric or underscore. -/
def wordChar (c : Char) : Bool := c.isAlphanum || c == '_'

/-- One attempt of the regex `\{(\w+)\}` at a position whose `{` has just been
consumed: on success returns the captured identifier and how many characters
of `rest` the remainder (`\w+\}`) of the match consumed. -/
def tryBrace (rest : List Char) : Option (String × Nat) :=
  let run := rest.takeWhile wordChar
  if run.isEmpty then none
  else
    match rest.drop run.length with
    | '}' :: _ => some (String.mk run, run.length + 1)
    | _ => none

/-- The global scan `while ((match = /\{(\w+)\}/g.exec(value)) !== null)`
(part_000 lines 67-71).  The first argument is the number of characters
still to skip after the previous match; a failed attempt advances one
character, a successful one continues after the match. -/
def braceScan : Nat → List Char → List String
  | _, [] => []
  | n + 1, _ :: rest => braceScan n rest
  | 0, '{' :: rest =>
    match tryBrace rest with
    | some (v, k) => v :: braceScan k rest
    | none => braceScan 0 rest
  | 0, _ :: rest => braceScan 0 rest

/-- All captures of `/\{(\w+)\}/g`, in match order. -/
def braceIdents (l : List Char) : List String := braceScan 0 l

/-- One attempt of the regex `<[^=]+=(\w+)>` at a position whose `<` has just
been consumed.  `[^=]+` is forced to the (nonempty) run up to the first `=`
(and may contain `<` or `>`); `\w+` is forced to the maximal word run, which
must be followed directly by `>`. -/
def tryTagValue (rest : List Char) : Option (String × Nat) :=
  let key := rest.takeWhile (fun c => c != '=')
  if key.isEmpty then none
  else
    match rest.drop key.length with
    | '=' :: afterEq =>
      let run := afterEq.takeWhile wordChar
      if run.isEmpty then none
      else
        match afterEq.drop run.length with
        | '>' :: _ => some (String.mk run, key.length + 1 + run.length + 1)
        | _ => none
    | _ => none

/-- The global scan of `/<[^=]+=(\w+)>/g` (part_000 lines 74-77). -/
def tagValueScan : Nat → List Char → List String
  | _, [] => []
  | n + 1, _ :: rest => tagValueScan n rest
  | 0, '<' :: rest =>
    match tryTagValue rest with
    | some (v, k) => v :: tagValueScan k rest
    | none => tagValueScan 0 rest
  | 0, _ :: rest => tagValueScan 0 rest

/-- All captures of `/<[^=]+=(\w+)>/g`, in match order. -/
def tagValues (l : List Char) : List String := tagValueScan 0 l

/-- `extractPlaceholders` (part_000 lines 63-80): one JS `Set` receiving first
all brace-placeholder captures, then all attribute-value captures, in match
order.  A JS `Set` iterates in insertion order, so it is modelled as an
insertion-ordered duplicate-free list. -/
def extractPlaceholders (s : String) : List String :=
  (braceIdents s.data ++ tagValues s.data).foldl addUnique []

/-- One attempt of the tag regex `<[^>]+>` at a position whose `<` has just
been consumed: `[^>]+` is the (nonempty) run up to the first `>` and may
itself contain `<`. -/
def tryTag (rest : List Char) : Option (String × Nat) :=
  let body := rest.takeWhile (fun c => c != '>')
  if body.isEmpty then none
  else
    match rest.drop body.length with
    | '>' :: _ => some (String.mk ('<' :: (body ++ ['>'])), body.length + 1)
    | _ => none

/-- The scan of `value.match(/<[^>]+>/g) || []` (part_000 lines 131-133). -/
def tagScan : Nat → List Char → List String
  | _, [] => []
  | n + 1, _ :: rest => tagScan n rest
  | 0, '<' :: rest =>
    match tryTag rest with
    | some (v, k) => v :: tagScan k rest
    | none => tagScan 0 rest
  | 0, _ :: rest => tagScan 0 rest

/-- The ordered list of full tag texts of a value. -/
def extractTags (l : List Char) : List String := tagScan 0 l

/-- `(value.match(/\$/g) || []).length` (part_000 lines 124-125). -/
def dollarCount (s : String) : Nat := s.data.count '$'

/-- Placeholder check of part_000 lines 113-114:
`orig.size !== trans.size || ![...orig].every(ph => trans.has(ph))`. -/
def phMismatchB (po pt : List String) : Bool :=
  (po.length != pt.length) || !(po.all (fun x => pt.contains x))

/-- Tag check of part_000 line 134: `origTags.length !== transTags.length ||
!origTags.every((tag, i) => tag === transTags[i])`. -/
def tagMismatchB (a b : List String) : Bool :=
  (a.length != b.length) || !((a.zip b).all (fun p => p.1 == p.2))

/-- A structured mismatch reported by the token validator. -/
inductive Mismatch where
  | placeholder (missing extra : List String)
  | dollar (origCount transCount : Nat)
  | tag (origTags transTags : List String)
deriving DecidableEq

/-- The three checks run for one (original, translated) pair
(part_000 lines 110-136): placeholder set equality with missing/extra
reporting, `$` count equality, and exact ordered tag-sequence equality. -/
def compareTokens (orig trans : String) : List Mismatch :=
  (if phMismatchB (extractPlaceholders orig) (extractPlaceholders trans) then
    [Mismatch.placeholder
      ((extractPlaceholders orig).filter
        (fun x => !((extractPlaceholders trans).contains x)))
      ((extractPlaceholders trans).filter
        (fun x => !((extractPlaceholders orig).contains x)))]
  else []) ++
  (if dollarCount orig != dollarCount trans then
    [Mismatch.dollar (dollarCount orig) (dollarCount trans)]
  else []) ++
  (if tagMismatchB (extractTags orig.data) (extractTags trans.data) then
    [Mismatch.tag (extractTags orig.data) (extractTags trans.data)]
  else [])

/-- Modelled from the spec (refinement side of C7, written from the words of
spec section 4.6, not from the code): one attempt at a well-formed tag span,
an angle-bracket delimited span whose body is nonempty and contains no
nested angle bracket. -/
def trySpecTag (rest : List Char) : Option (List Char × Nat) :=
  let body := rest.takeWhile (fun c => c != '>' && c != '<')
  if body.isEmpty then none
  else
    match rest.drop body.length with
    | '>' :: _ => some (body, body.length + 1)
    | _ => none

/-- Modelled from the spec: the value token of a key=value shaped tag body
(key nonempty and without an equals sign, value a nonempty word run). -/
def specTagValueOf (body : List Char) : Option String :=
  let key := body.takeWhile (fun c => c != '=')
  match body.drop key.length with
  | '=' :: value =>
    if key.isEmpty || value.isEmpty || !(value.all wordChar) then none
    else some (String.mk value)
  | _ => none

/-- Modelled from the spec: scan for value tokens of well-formed tags. -/
def specTagScan : Nat → List Char → List String
  | _, [] => []
  | n + 1, _ :: rest => specTagScan n rest
  | 0, '<' :: rest =>
    match trySpecTag rest with
    | some (body, k) =>
      (match specTagValueOf body with
       | some v => [v]
       | none => []) ++ specTagScan k rest
    | none => specTagScan 0 rest
  | 0, _ :: rest => specTagScan 0 rest

/-- Modelled from the spec: the placeholder set as spec section 4.6 words it,
brace identifiers plus value tokens of well-formed key=value tags.  Used
only to compare the spec sentence of C7 against `extractPlaceholders`. -/
def specPlaceholders (s : String) : List String :=
  (braceIdents s.data ++ specTagScan 0 s.data).foldl addUnique []

/-- `row[Object.keys(row)[1]] || ''` (extract_langs.js line 126): the value of
the second column of a secondary-file row, empty if absent. -/
def secondColVal (r : Row) : String := (r.getD 1 ("", "")).2

/-- The successful output of merge: output header list, the name of the new
column, and the extended rows. -/
structure MergeOk where
  headers : List String
  newColName : String
  rows : List Row
deriving DecidableEq

/-- The failure modes of merge; every one prints a diagnostic and returns. -/
inductive MergeErr where
  | fileNotFound
  | emptyOriginal
  | emptyNew
  | schemaError
deriving DecidableEq

/-- extract_langs.js lines 196-201: extend row `index` of the original with
the new column, whose value is `newLangValues[index]` when that index
exists and the empty string otherwise (order-based mapping). -/
def mergeRows (name : String) (vals : List String) : Nat → List Row → List Row
  | _, [] => []
  | i, r :: rs => setCol r name (vals.getD i "") :: mergeRows name vals (i + 1) rs

/-- The merge pipeline (extract_langs.js lines 65-215) after both files were
read: retained rows of original and new-language file, emptiness checks in
source order, the two-column schema check on the first new-language row,
language-name detection (`actualLangCol || nameDerivedFromFileName`), and
positional extension of every original row. -/
def merge (P S : List Row) (fileDerivedName : String) : Except MergeErr MergeOk :=
  let origRows := retainValid P
  if origRows.isEmpty then .error .emptyOriginal
  else
    let newRows := retainValid S
    if newRows.isEmpty then .error .emptyNew
    else
      let newLangValues := newRows.map secondColVal
      let newLangHeaders := (newRows.headD []).map (fun p => p.1)
      if newLangHeaders.length != 2 || newLangHeaders.headD "" != "Key" then
        .error .schemaError
      else
        let actualLangCol := newLangHeaders.getD 1 ""
        let name := if actualLangCol == "" then fileDerivedName else actualLangCol
        .ok { headers := ((origRows.headD []).map (fun p => p.1)) ++ [name]
              newColName := name
              rows := mergeRows name newLangValues 0 origRows }

/-- extract_langs.js lines 66-69: the existence check preceding the merge. -/
def mergeMain (origExists newExists : Bool) (P S : List Row)
    (fileDerivedName : String) : Except MergeErr MergeOk :=
  if origExists && newExists then merge P S fileDerivedName
  else .error .fileNotFound

/-- part_000 line 29: `row.English ? row.English : " "` (missing or empty
value exported as a single space). -/
def englishOrSpace (r : Row) : String :=
  match getCol r "English" with
  | some s => if s == "" then " " else s
  | none => " "

/-- The value sequence collected by `extractEnglishToJson` (part_000 lines
26-30): every parsed row contributes, with no Key filtering. -/
def extractEnglishValues (rows : List Row) : List String := rows.map englishOrSpace

/-- The raw English column values of the parsed rows, empty when absent. -/
def rawEnglish (rows : List Row) : List String :=
  rows.map (fun r => (getCol r "English").getD "")

/-- The export-time substitution of an empty value by one space. -/
def substEmpty (s : String) : String := if s == "" then " " else s

/-- part_000 line 15: the fixed chunk size. -/
def chunkSize : Nat := 100

/-- The chunking loop of part_000 lines 32-37: `for (i = 0; i < n; i += C)`
writes `slice(i, i + C)` under 1-based chunk index.  Iteration `j` of the
loop handles source indices `[j*C, j*C + C)`; the loop runs
`(n + C - 1) / C` times.  (For `C = 0` the JS loop would not terminate; the
model returns no chunks, and every claim assumes a chunk size of at least
one.) -/
def exportChunks (C : Nat) (l : List String) : List (Nat × List String) :=
  (List.range ((l.length + C - 1) / C)).map
    (fun j => (j + 1, (l.drop (j * C)).take C))

/-- Ordered insertion by chunk index: the comparator of part_000 lines
168-172 sorts the chunk files by ascending parsed numeric index. -/
def insertByIdx (x : Nat × List String) : List (Nat × List String) → List (Nat × List String)
  | [] => [x]
  | y :: ys => if x.1 ≤ y.1 then x :: y :: ys else y :: insertByIdx x ys

/-- Sort of the chunk file list by ascending numeric chunk index. -/
def sortByIdx : List (Nat × List String) → List (Nat × List String)
  | [] => []
  | x :: xs => insertByIdx x (sortByIdx xs)

/-- part_000 lines 166-178: read all chunk files, sort by ascending numeric
chunk index, and concatenate their value arrays in that order. -/
def importAll (files : List (Nat × List String)) : List String :=
  ((sortByIdx files).map (fun p => p.2)).flatten

/-- `originalRows[idx].English || ''` (part_000 lines 108, 189). -/
def engAt (rows : List Row) (idx : Nat) : String :=
  (getCol (rows.getD idx []) "English").getD ""

/-- The validation loop of part_000 lines 105-137 (and 187-218): for each
translation position `j` (source row `start + j`) push one error entry per
failed check, collecting every mismatch of the whole batch. -/
def collectValueErrors (rows : List Row) (start : Nat) (ts : List String) :
    List (Nat × Mismatch) :=
  ((List.range ts.length).map (fun j =>
    (compareTokens (engAt rows (start + j)) (ts.getD j "")).map
      (fun m => (start + j, m)))).flatten

/-- The mutation loop of part_000 lines 145-148 (and 226-228):
`originalRows[start + j].English = translations[j]`. -/
def updateRowsGo (start : Nat) (ts : List String) : Nat → List Row → List Row
  | _, [] => []
  | i, r :: rs =>
    (if start ≤ i && i - start < ts.length then
      setCol r "English" (ts.getD (i - start) "")
    else r) :: updateRowsGo start ts (i + 1) rs

/-- Apply a translation batch at a positional offset. -/
def updateRows (start : Nat) (ts : List String) (rows : List Row) : List Row :=
  updateRowsGo start ts 0 rows

/-- `parseInt` on a digit run. -/
def digitsToNat (l : List Char) : Nat :=
  l.foldl (fun a c => a * 10 + (c.toNat - 48)) 0

/-- One attempt of the (unanchored) regex `data_(\d+)\.json` at a position:
the literal `data_`, a maximal nonempty digit run, then the literal
`.json`, anything after it allowed. -/
def chunkIndexAt : List Char → Option Nat
  | 'd' :: 'a' :: 't' :: 'a' :: '_' :: rest =>
    let digits := rest.takeWhile Char.isDigit
    if digits.isEmpty then none
    else
      match rest.drop digits.length with
      | '.' :: 'j' :: 's' :: 'o' :: 'n' :: _ => some (digitsToNat digits)
      | _ => none
  | _ => none

/-- Leftmost-match scan of `data_(\d+)\.json` over the file name. -/
def chunkIndexScan : List Char → Option Nat
  | [] => none
  | c :: rest =>
    match chunkIndexAt (c :: rest) with
    | some n => some n
    | none => chunkIndexScan rest

/-- part_000 line 89: `path.basename(file).match(/data_(\d+)\.json/)`,
returning the parsed chunk index of the first match. -/
def parseChunkIndex (name : String) : Option Nat := chunkIndexScan name.data

/-- The failure modes of the translation applier; each one prints a
diagnostic and calls `process.exit(1)`. -/
inductive UpdateErr where
  | invalidFilename
  | lengthMismatch (actual expected : Int)
  | lengthMismatchAll (csvRows totalItems : Nat)
  | valueErrors (errs : List (Nat × Mismatch))
  | runtimeError
deriving DecidableEq

/-- `updateCsvWithTranslation` (part_000 lines 83-158): parse the chunk index
from the file name (exit on no match), compute
`startIndex = (chunkIndex - 1) * chunkSize` and
`expected = min(chunkSize, rows - startIndex)` in JS number arithmetic,
exit on a length mismatch, then validate every pair of the chunk and only
then mutate.  A chunk index of 0 would make the validation loop read
`originalRows[negative]`, whose thrown TypeError is caught by the handler
of line 154 (modelled as `runtimeError`). -/
def updateCsvWithTranslation (rows : List Row) (fileName : String)
    (translations : List String) : Except UpdateErr (List Row) :=
  match parseChunkIndex fileName with
  | none => .error .invalidFilename
  | some chunkIndex =>
    let startIndex : Int := ((chunkIndex : Int) - 1) * (chunkSize : Int)
    let expected : Int := min (chunkSize : Int) ((rows.length : Int) - startIndex)
    if (translations.length : Int) ≠ expected then
      .error (.lengthMismatch (translations.length : Int) expected)
    else if startIndex < 0 ∧ translations ≠ [] then .error .runtimeError
    else
      let s := startIndex.toNat
      let errs := collectValueErrors rows s translations
      if errs ≠ [] then .error (.valueErrors errs)
      else .ok (updateRows s translations rows)

/-- `updateCsvWithAllTranslations` (part_000 lines 161-238): concatenate all
chunks in ascending index order, exit when the total count differs from the
row count, validate every pair, and only then mutate positionally. -/
def updateCsvWithAllTranslations (rows : List Row)
    (files : List (Nat × List String)) : Except UpdateErr (List Row) :=
  let allTranslations := importAll files
  if rows.length ≠ allTranslations.length then
    .error (.lengthMismatchAll rows.length allTranslations.length)
  else
    let errs := collectValueErrors rows 0 allTranslations
    if errs ≠ [] then .error (.valueErrors errs)
    else .ok (updateRows 0 allTranslations rows)

/-- The failure mode of split (extract_langs.js lines 31-34). -/
inductive SplitErr where
  | emptyInput
deriving DecidableEq

/-- split (extract_langs.js lines 13-63) up to its validation outcome. -/
def splitResult (rows : List Row) : Except SplitErr Unit :=
  if retainValid rows = [] then .error .emptyInput else .ok ()

/-- Exit status of the process after split: the empty-input branch (lines
31-34) prints to standard error and returns normally, so the process still
terminates with status 0; the success path also exits 0. -/
def splitExitCode : Except SplitErr Unit → Nat
  | .error .emptyInput => 0
  | .ok _ => 0

/-- Whether split printed a diagnostic (console.error at line 32). -/
def splitDiagnostic : Except SplitErr Unit → Bool
  | .error _ => true
  | .ok _ => false

/-- Exit status of the process after merge: every failure branch (lines
66-69, 99-102, 139-142, 161-164) prints a diagnostic and returns, so the
process terminates with status 0 in every case. -/
def mergeExitCode : Except MergeErr MergeOk → Nat
  | .error .fileNotFound => 0
  | .error .emptyOriginal => 0
  | .error .emptyNew => 0
  | .error .schemaError => 0
  | .ok _ => 0

/-- Whether merge printed a failure diagnostic before returning. -/
def mergeDiagnostic : Except MergeErr MergeOk → Bool
  | .error _ => true
  | .ok _ => false

/-- Exit status of the chunked-translation script's update entry points:
every failure branch calls `process.exit(1)` (part_000 lines 92, 101, 141,
156 and 183, 222, 236); success returns normally with status 0. -/
def updateExitCode : Except UpdateErr (List Row) → Nat
  | .error _ => 1
  | .ok _ => 0

/-- extract_langs.js lines 8-11: an unrecognized mode exits with status 1
before anything else runs. -/
def modeExitCode (mode : String) : Nat :=
  if mode == "split" || mode == "merge" then 0 else 1

/-- Concrete primary file rows for the duplicate-key merge instance. -/
def dupP : List Row :=
  [[("Key", "K1"), ("English", "e1")],
   [("Key", "K1"), ("English", "e2")],
   [("Key", "K2"), ("English", "e3")]]

/-- Concrete secondary file rows carrying positional values v1, v1b, v2. -/
def dupS : List Row :=
  [[("Key", "K1"), ("French", "v1")],
   [("Key", "K1"), ("French", "v1b")],
   [("Key", "K2"), ("French", "v2")]]

/-- The merge output on `dupP` and `dupS`. -/
def dupOut : MergeOk :=
  { headers := ["Key", "English", "French"]
    newColName := "French"
    rows := [[("Key", "K1"), ("English", "e1"), ("French", "v1")],
             [("Key", "K1"), ("English", "e2"), ("French", "v1b")],
             [("Key", "K2"), ("English", "e3"), ("French", "v2")]] }

/-- A row whose Key is whitespace-only (invalid for split and merge). -/
def rowWsKey : Row := [("Key", " "), ("English", "x")]

/-- Concrete rows for the chunk round-trip witness: one empty English value. -/
def rtRows : List Row :=
  [[("Key", "k1"), ("English", "")],
   [("Key", "k2"), ("English", "b")],
   [("Key", "k3"), ("English", "c")]]

/-- Concrete single-row store for the applier witnesses. -/
def wRows : List Row := [[("Key", "k1"), ("English", "{a}")]]

/-- Concrete chunk-file list for the applier witnesses. -/
def wFiles : List (Nat × List String) := [(1, ["x"])]

/-- A primary file that already carries a column named French. -/
def colP : List Row := [[("Key", "K1"), ("French", "old")]]

/-- A secondary file whose language column is also named French. -/
def colS : List Row := [[("Key", "K1"), ("French", "v1")]]

/-- The merge output on `colP` and `colS`: the existing French column of the
primary row is overwritten in place, no new column is added to the row,
while the output header still appends the name a second time. -/
def colOut : MergeOk :=
  { headers := ["Key", "French", "French"]
    newColName := "French"
    rows := [[("Key", "K1"), ("French", "v1")]] }

theorem mem_addUnique {acc : List String} {y x : String} :
    x ∈ addUnique acc y ↔ x ∈ acc ∨ x = y := by
  unfold addUnique
  split
  · rename_i h
    constructor
    · exact Or.inl
    · rintro (hx | rfl)
      · exact hx
      · simpa using h
  · simp

theorem mem_foldl_addUnique : ∀ (l acc : List String) (x : String),
    x ∈ l.foldl addUnique acc ↔ x ∈ acc ∨ x ∈ l := by
  intro l
  induction l with
  | nil => simp
  | cons y l ih =>
    intro acc x
    rw [List.foldl_cons, ih, mem_addUnique]
    simp only [List.mem_cons]
    tauto

theorem nodup_addUnique {acc : List String} {y : String} (h : acc.Nodup) :
    (addUnique acc y).Nodup := by
  unfold addUnique
  split
  · exact h
  · rename_i hc
    rw [List.nodup_append]
    refine ⟨h, List.nodup_singleton y, ?_⟩
    intro a ha hb
    rcases List.mem_singleton.mp hb with rfl
    exact absurd ha (by simpa using hc)

theorem nodup_foldl_addUnique : ∀ (l acc : List String),
    acc.Nodup → (l.foldl addUnique acc).Nodup := by
  intro l
  induction l with
  | nil => exact fun _ h => h
  | cons y l ih =>
    intro acc h
    rw [List.foldl_cons]
    exact ih _ (nodup_addUnique h)

theorem filter_length_partition (f : String → Bool) (p : List String) :
    (p.filter f).length + (p.filter (fun x => !(f x))).length = p.length := by
  induction p with
  | nil => rfl
  | cons x xs ih =>
    by_cases h : f x = true <;> simp [List.filter_cons, h] <;> omega

/-- C5: the key reconciler has pure set semantics on the distinct trimmed key
sets: matching is the intersection, missingInSecondary the primary
difference, extraInSecondary the secondary difference; the collected key
sets are duplicate-free sets of trimmed keys; and on primary keys A,B,C and
secondary keys B,C,D it yields matching B,C, missing A, extra D. -/
theorem reconcile_sets :
    (∀ (p s : List String) (k : String),
      (k ∈ (reconcile p s).matching ↔ k ∈ p ∧ k ∈ s) ∧
      (k ∈ (reconcile p s).missingInSecondary ↔ k ∈ p ∧ k ∉ s) ∧
      (k ∈ (reconcile p s).extraInSecondary ↔ k ∈ s ∧ k ∉ p)) ∧
    (∀ rows : List Row, (collectKeys rows).Nodup) ∧
    (∀ (rows : List Row) (k : String),
      k ∈ collectKeys rows ↔ ∃ r ∈ rows, jsTrim ((getCol r "Key").getD "") = k) ∧
    reconcile ["A", "B", "C"] ["B", "C", "D"] =
      { matching := ["B", "C"], missingInSecondary := ["A"], extraInSecondary := ["D"] } := by
  refine ⟨?_, ?_, ?_, by decide⟩
  · intro p s k
    refine ⟨?_, ?_, ?_⟩ <;> simp [reconcile, List.mem_filter]
  · intro rows
    unfold collectKeys
    rw [show (fun (acc : List String) (r : Row) =>
          addUnique acc (jsTrim ((getCol r "Key").getD ""))) =
        (fun acc r => addUnique acc ((fun r0 : Row => jsTrim ((getCol r0 "Key").getD "")) r))
      from rfl, ← List.foldl_map]
    exact nodup_foldl_addUnique _ _ List.nodup_nil
  · intro rows k
    unfold collectKeys
    rw [show (fun (acc : List String) (r : Row) =>
          addUnique acc (jsTrim ((getCol r "Key").getD ""))) =
        (fun acc r => addUnique acc ((fun r0 : Row => jsTrim ((getCol r0 "Key").getD "")) r))
      from rfl, ← List.foldl_map, mem_foldl_addUnique]
    simp [List.mem_map, eq_comm]

/-- C10: the size of the matching key set always equals the primary key count
minus the missing-in-secondary count, so the defensive warning condition of
merge (line 191) is false for all inputs: the warning branch is
unreachable. -/
theorem reconcile_warning_unreachable (p s : List String) :
    (((reconcile p s).matching.length : Int) = expectedMatches p s) ∧
    mergeWarnB p s = false := by
  have h := filter_length_partition (fun k => s.contains k) p
  have heq : (((reconcile p s).matching.length : Int) = expectedMatches p s) := by
    unfold expectedMatches
    unfold reconcile at h ⊢
    simp only at h ⊢
    omega
  refine ⟨heq, ?_⟩
  unfold mergeWarnB
  rw [heq]
  simp

theorem all_contains_self (l : List String) :
    l.all (fun x => l.contains x) = true := by
  simp [List.all_eq_true]

theorem zip_self_all_beq (l : List String) :
    ((l.zip l).all (fun p => p.1 == p.2)) = true := by
  induction l with
  | nil => rfl
  | cons x xs ih => simpa using ih

/-- C6: the token validator accepts any text against itself: the placeholder
set, the dollar count and the ordered tag sequence of a string equal
themselves, so the mismatch list of a pair of identical texts is empty. -/
theorem compareTokens_refl (s : String) : compareTokens s s = [] := by
  have h1 : phMismatchB (extractPlaceholders s) (extractPlaceholders s) = false := by
    unfold phMismatchB
    simp [all_contains_self]
  have h3 : tagMismatchB (extractTags s.data) (extractTags s.data) = false := by
    unfold tagMismatchB
    simp [zip_self_all_beq]
  unfold compareTokens
  simp [h1, h3]

/-- C4 counterexample: splitting an empty input is a validation failure that
prints a diagnostic, yet the process terminates with exit status 0, because
the empty-input branch of split returns normally instead of calling
process.exit(1). -/
theorem exit_code_counterexample :
    splitResult [] = .error .emptyInput ∧
    splitDiagnostic (splitResult []) = true ∧
    splitExitCode (splitResult []) = 0 :=
  ⟨rfl, rfl, rfl⟩

/-- C4 amended: the chunked-translation script exits 1 exactly on failure and
0 exactly on success, and an unrecognized mode exits 1; but in the
split/merge utility every validation, schema or I/O failure merely prints a
diagnostic and the process still exits 0. -/
theorem exit_codes_amended :
    (∀ rows : List Row, splitExitCode (splitResult rows) = 0) ∧
    (∀ r : Except MergeErr MergeOk, mergeExitCode r = 0) ∧
    (∀ r : Except MergeErr MergeOk, mergeDiagnostic r = true ↔ ∃ e, r = .error e) ∧
    (∀ u : Except UpdateErr (List Row),
      (updateExitCode u = 0 ↔ ∃ out, u = .ok out) ∧
      (updateExitCode u = 1 ↔ ∃ e, u = .error e)) ∧
    (∀ mode : String, modeExitCode mode = 1 ↔ (mode ≠ "split" ∧ mode ≠ "merge")) ∧
    (∀ rows : List Row,
      splitDiagnostic (splitResult rows) = true ↔ retainValid rows = []) := by
  refine ⟨?_, ?_, ?_, ?_, ?_, ?_⟩
  · intro rows
    cases h : splitResult rows with
    | error e => cases e; rfl
    | ok v => rfl
  · intro r
    cases r with
    | error e => cases e <;> rfl
    | ok v => rfl
  · intro r
    cases r with
    | error e => simp [mergeDiagnostic]
    | ok v => simp [mergeDiagnostic]
  · intro u
    cases u with
    | error e => simp [updateExitCode]
    | ok v => simp [updateExitCode]
  · intro mode
    by_cases h1 : mode = "split"
    · subst h1; simp [modeExitCode]
    · by_cases h2 : mode = "merge"
      · subst h2; simp [modeExitCode]
      · simp [modeExitCode, h1, h2]
  · intro rows
    unfold splitResult splitDiagnostic
    split
    · rename_i h
      simpa using h
    · rename_i h
      simpa using h

/-- C9 counterexample: a parsed row whose Key is whitespace-only is invalid
for split and merge, yet the chunked-translation operations retain it:
getCsvRows keeps every parsed row and the extract pipeline exports its
English value, contradicting the claim that every operation discards rows
with a whitespace-only Key. -/
theorem row_retention_counterexample :
    validRow rowWsKey = false ∧
    getCsvRows [rowWsKey] = [rowWsKey] ∧
    getCsvRows [rowWsKey] ≠ retainValid [rowWsKey] ∧
    extractEnglishValues (getCsvRows [rowWsKey]) = ["x"] := by
  refine ⟨by decide, rfl, by decide, by decide⟩

/-- C9 amended: split and merge retain exactly the parsed rows whose trimmed
Key is non-empty; the extract, update and update-all operations of the
chunked-translation script keep every parsed row (one exported value per
parsed row), with no Key-based filtering. -/
theorem row_retention_amended :
    (∀ (rows : List Row) (r : Row),
      r ∈ retainValid rows ↔ r ∈ rows ∧ validRow r = true) ∧
    (∀ rows : List Row, getCsvRows rows = rows) ∧
    (∀ rows : List Row, (extractEnglishValues rows).length = rows.length) := by
  refine ⟨?_, fun _ => rfl, fun rows => by simp [extractEnglishValues]⟩
  intro rows r
  simp [retainValid, List.mem_filter]

theorem getD_map_range {α : Type} (f : Nat → α) {k j : Nat} (d : α) (h : j < k) :
    ((List.range k).map f).getD j d = f j := by
  have hl : j < ((List.range k).map f).length := by simpa using h
  rw [List.getD_eq_getElem _ _ hl]
  simp

theorem sortByIdx_pairwise_eq : ∀ l : List (Nat × List String),
    l.Pairwise (fun a b => a.1 ≤ b.1) → sortByIdx l = l := by
  intro l
  induction l with
  | nil => intro _; rfl
  | cons x xs ih =>
    intro h
    rw [List.pairwise_cons] at h
    simp only [sortByIdx]
    rw [ih h.2]
    cases xs with
    | nil => rfl
    | cons y ys =>
      simp only [insertByIdx]
      rw [if_pos (h.1 y (List.mem_cons_self y ys))]

theorem exportChunks_pairwise (C : Nat) (l : List String) :
    (exportChunks C l).Pairwise (fun a b => a.1 ≤ b.1) := by
  unfold exportChunks
  rw [List.pairwise_map]
  exact (List.pairwise_lt_range _).imp (fun h => by omega)

theorem flatten_chunks (C : Nat) (_hC : 0 < C) : ∀ (k : Nat) (l : List String),
    l.length ≤ k * C →
    ((List.range k).map (fun j => (l.drop (j * C)).take C)).flatten = l := by
  intro k
  induction k with
  | zero =>
    intro l h
    have : l = [] := List.eq_nil_of_length_eq_zero (by omega)
    subst this
    rfl
  | succ k ih =>
    intro l h
    rw [List.range_succ_eq_map]
    simp only [List.map_cons, List.map_map, Nat.zero_mul, List.drop_zero,
      List.flatten_cons]
    have hcomp : ((fun j => (l.drop (j * C)).take C) ∘ (fun j => j + 1)) =
        (fun j => (((l.drop C).drop (j * C)).take C)) := by
      funext j
      simp only [Function.comp]
      rw [List.drop_drop]
      have hsm : (j + 1) * C = j * C + C := Nat.succ_mul j C
      congr 2
      omega
    have hlen : (l.drop C).length ≤ k * C := by
      rw [List.length_drop]
      have hsm : (k + 1) * C = k * C + C := Nat.succ_mul k C
      omega
    rw [hcomp, ih (l.drop C) hlen, List.take_append_drop]

theorem length_le_ceil_mul (C n : Nat) (hC : 0 < C) :
    n ≤ ((n + C - 1) / C) * C := by
  rw [Nat.mul_comm]
  have h := Nat.div_add_mod (n + C - 1) C
  have hlt : (n + C - 1) % C < C := Nat.mod_lt _ hC
  set a := C * ((n + C - 1) / C) with ha
  set r := (n + C - 1) % C with hr
  omega

/-- C2: exporting the English values produces exactly ceil(n/C) chunks,
indexed 1 up to ceil(n/C), where chunk j+1 holds the source values at
indices j*C up to j*C+C (empty or absent source values replaced by one
space at collection time), and importing all chunks sorted by ascending
index and concatenated yields exactly the collected value sequence, the
source values with empties replaced by one space. -/
theorem chunk_roundtrip (rows : List Row) (C : Nat) (hC : 1 ≤ C) :
    extractEnglishValues rows = (rawEnglish rows).map substEmpty ∧
    (exportChunks C (extractEnglishValues rows)).length =
      (((extractEnglishValues rows).length + C - 1) / C) ∧
    (∀ j, j < ((extractEnglishValues rows).length + C - 1) / C →
      (exportChunks C (extractEnglishValues rows)).getD j (0, []) =
        (j + 1, ((extractEnglishValues rows).drop (j * C)).take C)) ∧
    importAll (exportChunks C (extractEnglishValues rows)) =
      extractEnglishValues rows := by
  have hpt : ∀ r : Row, englishOrSpace r = substEmpty ((getCol r "English").getD "") := by
    intro r
    unfold englishOrSpace substEmpty
    cases h : getCol r "English" with
    | none => simp
    | some s => simp
  refine ⟨?_, ?_, ?_, ?_⟩
  · unfold extractEnglishValues rawEnglish
    rw [List.map_map]
    exact List.map_congr_left (fun r _ => hpt r)
  · simp [exportChunks]
  · intro j hj
    unfold exportChunks
    exact getD_map_range _ _ hj
  · unfold importAll
    rw [sortByIdx_pairwise_eq _ (exportChunks_pairwise C _)]
    unfold exportChunks
    rw [List.map_map]
    rw [show ((fun p : Nat × List String => p.2) ∘
        (fun j => (j + 1, ((extractEnglishValues rows).drop (j * C)).take C))) =
        (fun j => ((extractEnglishValues rows).drop (j * C)).take C) from rfl]
    exact flatten_chunks C (by omega) _ _ (length_le_ceil_mul C _ (by omega))

/-- C2 witness: the round-trip instantiated at chunk size 2 and a three-row
store whose first English value is empty. -/
theorem chunk_roundtrip_witness :
    (1 : Nat) ≤ 2 ∧
    (exportChunks 2 (extractEnglishValues rtRows)).length =
      (((extractEnglishValues rtRows).length + 2 - 1) / 2) ∧
    (exportChunks 2 (extractEnglishValues rtRows)).getD 0 (0, []) =
      (0 + 1, ((extractEnglishValues rtRows).drop (0 * 2)).take 2) ∧
    importAll (exportChunks 2 (extractEnglishValues rtRows)) =
      extractEnglishValues rtRows :=
  ⟨by decide,
   (chunk_roundtrip rtRows 2 (by decide)).2.1,
   (chunk_roundtrip rtRows 2 (by decide)).2.2.1 0 (by decide),
   (chunk_roundtrip rtRows 2 (by decide)).2.2.2⟩

theorem mergeRows_length (name : String) (vals : List String) :
    ∀ (i : Nat) (rows : List Row), (mergeRows name vals i rows).length = rows.length := by
  intro i rows
  induction rows generalizing i with
  | nil => rfl
  | cons r rs ih => simp [mergeRows, ih]

theorem mergeRows_getD (name : String) (vals : List String) :
    ∀ (rows : List Row) (i0 j : Nat), j < rows.length →
      (mergeRows name vals i0 rows).getD j [] =
        setCol (rows.getD j []) name (vals.getD (i0 + j) "") := by
  intro rows
  induction rows with
  | nil => intro i0 j h; simp at h
  | cons r rs ih =>
    intro i0 j h
    cases j with
    | zero => simp [mergeRows]
    | succ j =>
      have h' : j < rs.length := by simpa using h
      simp only [mergeRows, List.getD_cons_succ]
      rw [show i0 + (j + 1) = (i0 + 1) + j from by omega]
      exact ih (i0 + 1) j h'

theorem setCol_not_has {r : Row} {c v : String} (h : hasCol r c = false) :
    setCol r c v = r ++ [(c, v)] := by
  unfold hasCol at h
  unfold setCol
  simp [h]

theorem setCol_has {r : Row} {c v : String} (h : hasCol r c = true) :
    setCol r c v = r.map (fun p => if p.1 == c then (p.1, v) else p) := by
  unfold hasCol at h
  unfold setCol
  simp [h]

/-- C1 counterexample: merge accepts a primary that already carries a column
named like the secondary's language column; there the JS assignment
overwrites that column in place, the old value is lost and no new column is
added to the row, so the output row is not the primary row extended with
one new column. -/
theorem merge_positional_counterexample :
    merge colP colS "french" = .ok colOut ∧
    (retainValid colP).getD 0 [] = [("Key", "K1"), ("French", "old")] ∧
    colOut.rows.getD 0 [] = [("Key", "K1"), ("French", "v1")] ∧
    colOut.rows.getD 0 [] ≠
      (retainValid colP).getD 0 [] ++
        [(colOut.newColName, ((retainValid colS).map secondColVal).getD 0 "")] :=
  ⟨by rfl, by rfl, by rfl, by decide⟩

/-- C1 amended: whenever merge accepts a primary and a secondary store, the
output has one row per retained primary row, and the value assigned at row
index i is always the secondary's second-column value at row index i when
that index exists and the empty string otherwise — strictly positional,
never a key lookup, so duplicate keys keep independent order-correspondent
values; when the primary row does not already carry the new column name the
row is extended with one new column holding that value, and when it already
carries that name the existing column is overwritten in place and no new
column is added to the row. -/
theorem merge_positional (P S : List Row) (nm : String) (out : MergeOk)
    (h : merge P S nm = .ok out) :
    out.rows.length = (retainValid P).length ∧
    (∀ i, i < (retainValid P).length →
      (hasCol ((retainValid P).getD i []) out.newColName = false →
        out.rows.getD i [] =
          (retainValid P).getD i [] ++
            [(out.newColName, ((retainValid S).map secondColVal).getD i "")]) ∧
      (hasCol ((retainValid P).getD i []) out.newColName = true →
        out.rows.getD i [] =
          ((retainValid P).getD i []).map
            (fun p => if p.1 == out.newColName then
              (p.1, ((retainValid S).map secondColVal).getD i "") else p))) := by
  obtain ⟨hs, nc, rs⟩ := out
  simp only [merge] at h
  split at h
  · simp at h
  split at h
  · simp at h
  split at h
  · simp at h
  rw [Except.ok.injEq, MergeOk.mk.injEq] at h
  obtain ⟨h1, h2, h3⟩ := h
  subst h2
  subst h3
  constructor
  · exact mergeRows_length _ _ 0 _
  · intro i hi
    constructor
    · intro hcol
      rw [mergeRows_getD _ _ _ 0 i hi]
      rw [setCol_not_has hcol]
      simp
    · intro hcol
      rw [mergeRows_getD _ _ _ 0 i hi]
      rw [setCol_has hcol]
      simp

/-- C1 witness: the duplicate-key instance with primary keys K1, K1, K2 and
secondary positional values v1, v1b, v2, whose output row 1 gains a new
column carrying v1b, and the column-collision instance, whose output row 0
has its existing French column overwritten in place with v1. -/
theorem merge_positional_witness :
    (merge dupP dupS "french" = .ok dupOut ∧
     dupOut.rows.getD 1 [] =
       (retainValid dupP).getD 1 [] ++
         [(dupOut.newColName, ((retainValid dupS).map secondColVal).getD 1 "")]) ∧
    (merge colP colS "french" = .ok colOut ∧
     colOut.rows.getD 0 [] =
       ((retainValid colP).getD 0 []).map
         (fun p => if p.1 == colOut.newColName then
           (p.1, ((retainValid colS).map secondColVal).getD 0 "") else p)) :=
  ⟨⟨by rfl,
    ((merge_positional dupP dupS "french" dupOut (by rfl)).2 1 (by decide)).1
      (by decide)⟩,
   ⟨by rfl,
    ((merge_positional colP colS "french" colOut (by rfl)).2 0 (by decide)).2
      (by decide)⟩⟩

theorem mem_collectValueErrors {rows : List Row} {start : Nat} {ts : List String}
    {k : Nat} {m : Mismatch} :
    (k, m) ∈ collectValueErrors rows start ts ↔
      ∃ j, j < ts.length ∧ k = start + j ∧
        m ∈ compareTokens (engAt rows (start + j)) (ts.getD j "") := by
  unfold collectValueErrors
  rw [List.mem_flatten]
  constructor
  · rintro ⟨l, hl, hml⟩
    rw [List.mem_map] at hl
    obtain ⟨j, hj, rfl⟩ := hl
    rw [List.mem_range] at hj
    rw [List.mem_map] at hml
    obtain ⟨m', hm', heq⟩ := hml
    injection heq with ha hb
    exact ⟨j, hj, ha.symm, hb ▸ hm'⟩
  · rintro ⟨j, hj, rfl, hm⟩
    exact ⟨_, List.mem_map_of_mem _ (List.mem_range.mpr hj),
      List.mem_map_of_mem _ hm⟩

theorem startIndex_nonneg {N : Nat} (hN : 1 ≤ N) :
    (0 : Int) ≤ ((N : Int) - 1) * (chunkSize : Int) := by
  have h1 : (1 : Int) ≤ (N : Int) := by exact_mod_cast hN
  exact mul_nonneg (by omega) (Int.natCast_nonneg _)

/-- C8: for a chunk file whose name matches the data_N.json pattern with N at
least 1, applyChunk computes startOffset (N-1)*chunkSize and expected length
min(chunkSize, rows - startOffset), fails with a length-mismatch error and
no mutation exactly when the chunk's actual count differs from that
expected length, and a non-matching chunk filename fails with the
invalid-filename error before any length check. -/
theorem applyChunk_checks :
    (∀ (rows : List Row) (name : String) (ts : List String),
      parseChunkIndex name = none →
      updateCsvWithTranslation rows name ts = .error .invalidFilename) ∧
    (∀ (rows : List Row) (name : String) (ts : List String) (N : Nat),
      parseChunkIndex name = some N → 1 ≤ N →
      (((ts.length : Int) ≠
          min (chunkSize : Int) ((rows.length : Int) - ((N : Int) - 1) * (chunkSize : Int)) →
        updateCsvWithTranslation rows name ts =
          .error (.lengthMismatch (ts.length : Int)
            (min (chunkSize : Int)
              ((rows.length : Int) - ((N : Int) - 1) * (chunkSize : Int)))) ∧
        ∀ out, updateCsvWithTranslation rows name ts ≠ .ok out) ∧
      ((ts.length : Int) =
          min (chunkSize : Int) ((rows.length : Int) - ((N : Int) - 1) * (chunkSize : Int)) →
        ∀ a e, updateCsvWithTranslation rows name ts ≠ .error (.lengthMismatch a e)))) := by
  constructor
  · intro rows name ts hparse
    simp only [updateCsvWithTranslation, hparse]
  · intro rows name ts N hparse hN
    constructor
    · intro hne
      constructor
      · simp only [updateCsvWithTranslation, hparse]
        rw [if_pos hne]
      · intro out
        simp only [updateCsvWithTranslation, hparse]
        rw [if_pos hne]
        simp
    · intro heq
      simp only [updateCsvWithTranslation, hparse]
      rw [if_neg (fun hco => hco heq)]
      rw [if_neg (fun hco : (((N : Int) - 1) * (chunkSize : Int) < 0 ∧ ts ≠ []) =>
        absurd hco.1 (not_lt.mpr (startIndex_nonneg hN)))]
      intro a e
      split
      · simp
      · simp

/-- C8 witness: a non-matching filename fails with the invalid-filename
error, and a matching filename with chunk index 2 against a one-row store
and zero supplied values fails with the length mismatch 0 against -99. -/
theorem applyChunk_checks_witness :
    updateCsvWithTranslation [] "nope.json" [] = .error .invalidFilename ∧
    updateCsvWithTranslation [[("Key", "k")]] "data_2.json" [] =
      .error (.lengthMismatch 0 (-99)) :=
  ⟨applyChunk_checks.1 [] "nope.json" [] (by rfl),
   ((applyChunk_checks.2 [[("Key", "k")]] "data_2.json" [] 2 (by rfl)
      (by decide)).1 (by decide)).1⟩

/-- C3: both applier entry points are all-or-nothing: when any (original,
translated) pair of the batch yields a non-empty mismatch list, the run
returns the aggregated value-error report and never the mutated rows (no
row mutated, no output written), and the report contains an entry for every
mismatching pair of the batch, not only the first. -/
theorem applier_all_or_nothing :
    (∀ (rows : List Row) (files : List (Nat × List String)),
      rows.length = (importAll files).length →
      ∀ k, k < (importAll files).length →
      compareTokens (engAt rows k) ((importAll files).getD k "") ≠ [] →
      ((∀ out, updateCsvWithAllTranslations rows files ≠ .ok out) ∧
       updateCsvWithAllTranslations rows files =
         .error (.valueErrors (collectValueErrors rows 0 (importAll files))) ∧
       (∀ k2, k2 < (importAll files).length →
         compareTokens (engAt rows k2) ((importAll files).getD k2 "") ≠ [] →
         ∃ m, (k2, m) ∈ collectValueErrors rows 0 (importAll files)))) ∧
    (∀ (rows : List Row) (name : String) (ts : List String) (N : Nat),
      parseChunkIndex name = some N → 1 ≤ N →
      (ts.length : Int) =
        min (chunkSize : Int) ((rows.length : Int) - ((N : Int) - 1) * (chunkSize : Int)) →
      ∀ k, k < ts.length →
      compareTokens (engAt rows ((N - 1) * chunkSize + k)) (ts.getD k "") ≠ [] →
      ((∀ out, updateCsvWithTranslation rows name ts ≠ .ok out) ∧
       updateCsvWithTranslation rows name ts =
         .error (.valueErrors (collectValueErrors rows ((N - 1) * chunkSize) ts)) ∧
       (∀ k2, k2 < ts.length →
         compareTokens (engAt rows ((N - 1) * chunkSize + k2)) (ts.getD k2 "") ≠ [] →
         ∃ m, ((N - 1) * chunkSize + k2, m) ∈
           collectValueErrors rows ((N - 1) * chunkSize) ts))) := by
  constructor
  · intro rows files hlen k hk hne
    have hmem : ∀ k2, k2 < (importAll files).length →
        compareTokens (engAt rows k2) ((importAll files).getD k2 "") ≠ [] →
        ∃ m, (k2, m) ∈ collectValueErrors rows 0 (importAll files) := by
      intro k2 hk2 hne2
      obtain ⟨m, hm⟩ := List.exists_mem_of_ne_nil _ hne2
      refine ⟨m, mem_collectValueErrors.mpr ⟨k2, hk2, by omega, ?_⟩⟩
      simpa using hm
    have herrs : collectValueErrors rows 0 (importAll files) ≠ [] := by
      obtain ⟨m, hm⟩ := hmem k hk hne
      exact List.ne_nil_of_mem hm
    have hres : updateCsvWithAllTranslations rows files =
        .error (.valueErrors (collectValueErrors rows 0 (importAll files))) := by
      simp only [updateCsvWithAllTranslations]
      rw [if_neg (by omega)]
      rw [if_pos herrs]
    refine ⟨?_, hres, hmem⟩
    intro out hco
    rw [hres] at hco
    simp at hco
  · intro rows name ts N hparse hN hlen k hk hne
    have hsnat : ((((N : Int) - 1) * (chunkSize : Int)).toNat) = (N - 1) * chunkSize := by
      simp only [chunkSize]
      omega
    have hmem : ∀ k2, k2 < ts.length →
        compareTokens (engAt rows ((N - 1) * chunkSize + k2)) (ts.getD k2 "") ≠ [] →
        ∃ m, ((N - 1) * chunkSize + k2, m) ∈
          collectValueErrors rows ((N - 1) * chunkSize) ts := by
      intro k2 hk2 hne2
      obtain ⟨m, hm⟩ := List.exists_mem_of_ne_nil _ hne2
      exact ⟨m, mem_collectValueErrors.mpr ⟨k2, hk2, rfl, hm⟩⟩
    have herrs : collectValueErrors rows ((N - 1) * chunkSize) ts ≠ [] := by
      obtain ⟨m, hm⟩ := hmem k hk hne
      exact List.ne_nil_of_mem hm
    have hres : updateCsvWithTranslation rows name ts =
        .error (.valueErrors (collectValueErrors rows ((N - 1) * chunkSize) ts)) := by
      simp only [updateCsvWithTranslation, hparse, hsnat]
      rw [if_neg (fun hco => hco hlen)]
      rw [if_neg (fun hco : (((N : Int) - 1) * (chunkSize : Int) < 0 ∧ ts ≠ []) =>
        absurd hco.1 (not_lt.mpr (startIndex_nonneg hN)))]
      rw [if_pos herrs]
    refine ⟨?_, hres, hmem⟩
    intro out hco
    rw [hres] at hco
    simp at hco

/-- C3 witness: a one-row store whose English text holds a brace placeholder
against a translation that drops it; both entry points return the
aggregated value-error report. -/
theorem applier_all_or_nothing_witness :
    updateCsvWithAllTranslations wRows wFiles =
      .error (.valueErrors (collectValueErrors wRows 0 (importAll wFiles))) ∧
    updateCsvWithTranslation wRows "data_1.json" ["x"] =
      .error (.valueErrors (collectValueErrors wRows ((1 - 1) * chunkSize) ["x"])) :=
  ⟨(applier_all_or_nothing.1 wRows wFiles (by rfl) 0 (by decide) (by decide)).2.1,
   (applier_all_or_nothing.2 wRows "data_1.json" ["x"] 1 (by rfl) (by decide)
      (by decide) 0 (by decide) (by decide)).2.1⟩

theorem nodup_extractPlaceholders (s : String) : (extractPlaceholders s).Nodup :=
  nodup_foldl_addUnique _ _ List.nodup_nil

theorem phMismatchB_false_iff {po pt : List String} (hpo : po.Nodup) (hpt : pt.Nodup) :
    phMismatchB po pt = false ↔ (∀ x, x ∈ po ↔ x ∈ pt) := by
  unfold phMismatchB
  rw [Bool.or_eq_false_iff]
  constructor
  · rintro ⟨hlen, hall⟩ x
    have hlen' : po.length = pt.length := by simpa using hlen
    have hall' : po.all (fun y => pt.contains y) = true := by simpa using hall
    have hsub : ∀ y ∈ po, y ∈ pt := by
      intro y hy
      rw [List.all_eq_true] at hall'
      simpa using hall' y hy
    constructor
    · exact fun hx => hsub x hx
    · intro hxpt
      have h1 : po.toFinset ⊆ pt.toFinset := by
        intro a ha
        exact List.mem_toFinset.mpr (hsub a (List.mem_toFinset.mp ha))
      have hc1 : po.toFinset.card = po.length := List.toFinset_card_of_nodup hpo
      have hc2 : pt.toFinset.card = pt.length := List.toFinset_card_of_nodup hpt
      have heq : po.toFinset = pt.toFinset :=
        Finset.eq_of_subset_of_card_le h1 (by omega)
      exact List.mem_toFinset.mp (heq ▸ List.mem_toFinset.mpr hxpt)
  · intro hiff
    have heqfin : po.toFinset = pt.toFinset := by
      ext a
      simp only [List.mem_toFinset]
      exact hiff a
    constructor
    · have hlen : po.length = pt.length := by
        rw [← List.toFinset_card_of_nodup hpo, ← List.toFinset_card_of_nodup hpt, heqfin]
      simpa using hlen
    · simp only [Bool.not_eq_false', List.all_eq_true]
      intro x hx
      simpa using (hiff x).mp hx

/-- C7 counterexample: on the input containing the well-formed tag followed by
an equals-sign fragment, the code's placeholder extractor harvests the
value token c although no tag of the shape key=value occurs (the only
angle-bracket span without nested brackets carries no equals sign): the
regex allows the key part to run across a closing bracket.  The
spec-modelled extractor yields the empty set, so the claimed
characterization fails at this input. -/
theorem placeholders_counterexample :
    extractPlaceholders "<a> b=c>" = ["c"] ∧
    specPlaceholders "<a> b=c>" = [] ∧
    extractPlaceholders "<a> b=c>" ≠ specPlaceholders "<a> b=c>" := by
  refine ⟨by decide, by decide, by decide⟩

/-- C7 amended: the placeholder set contains exactly the brace-placeholder
identifiers together with the value tokens of substrings of the form
key=value in angle brackets where the key is any nonempty run without an
equals sign — the key may itself contain angle brackets, so the span need
not be a well-formed tag; the set is duplicate-free, placeholder comparison
is order-insensitive set equality, and on mismatch the missing and extra
identifiers are reported. -/
theorem placeholders_amended :
    (∀ (s : String) (x : String),
      x ∈ extractPlaceholders s ↔ x ∈ braceIdents s.data ∨ x ∈ tagValues s.data) ∧
    (∀ s : String, (extractPlaceholders s).Nodup) ∧
    (∀ o t : String,
      phMismatchB (extractPlaceholders o) (extractPlaceholders t) = false ↔
        (∀ x, x ∈ extractPlaceholders o ↔ x ∈ extractPlaceholders t)) ∧
    (∀ o t : String,
      phMismatchB (extractPlaceholders o) (extractPlaceholders t) = true →
      Mismatch.placeholder
        ((extractPlaceholders o).filter (fun x => !((extractPlaceholders t).contains x)))
        ((extractPlaceholders t).filter (fun x => !((extractPlaceholders o).contains x)))
        ∈ compareTokens o t) := by
  refine ⟨?_, nodup_extractPlaceholders, ?_, ?_⟩
  · intro s x
    unfold extractPlaceholders
    rw [mem_foldl_addUnique]
    simp [List.mem_append]
  · intro o t
    exact phMismatchB_false_iff (nodup_extractPlaceholders o) (nodup_extractPlaceholders t)
  · intro o t h
    unfold compareTokens
    rw [if_pos h]
    simp

/-- C7 witness: a dropped brace placeholder is a mismatch, and the structured
placeholder mismatch with its missing and extra sets is reported. -/
theorem placeholders_amended_witness :
    phMismatchB (extractPlaceholders "{a}") (extractPlaceholders "x") = true ∧
    Mismatch.placeholder
      ((extractPlaceholders "{a}").filter (fun x => !((extractPlaceholders "x").contains x)))
      ((extractPlaceholders "x").filter (fun x => !((extractPlaceholders "{a}").contains x)))
      ∈ compareTokens "{a}" "x" :=
  ⟨by decide, placeholders_amended.2.2.2 "{a}" "x" (by decide)⟩
